import Mathlib

/-!
Verification of `scripts/scrape_vic_council_jobs.py` against its specification.

The Python script is shallowly embedded below.  HTML documents, BeautifulSoup
tags and the network are abstracted behind an `Env` record of pure oracle
functions: `fetch` maps a URL to the fetched text (the empty string encodes a
fetch failure, exactly as `fetch_page` returns `""` on any exception) and
`parse` maps raw HTML text to a navigable document.  A document or card answers
CSS-selector queries through `select`/`selectOne`; a BeautifulSoup `Tag` is
abstracted to its stripped text (`get_text(strip=True)`) and its `href`
attribute (`get("href", "")`).  BeautifulSoup `Tag` objects are always truthy,
so Python's `x or y` on selector results is the `Option.or` of the two queries,
and `if not tag` is a `none` test.

Strings are Lean `String`s (sequences of Unicode code points, matching Python
`str`); character classes of the regular expression in `extract_pay_band` are
expressed through code points (`Char.toNat`).
-/

/-- A BeautifulSoup tag, abstracted to the two observations the script makes of
it: `get_text(strip=True)` and `get("href", "")`. -/
structure Tag where
  text : String
  href : String
  deriving DecidableEq, Repr

/-- One candidate item node of a list page (`card`): answers
`card.select_one(sel)` queries. -/
structure Card where
  selectOne : String → Option Tag

/-- A parsed HTML document (`BeautifulSoup(html, "lxml")`): answers
`soup.select(sel)` and `soup.select_one(sel)` queries. -/
structure Doc where
  select : String → List Card
  selectOne : String → Option Tag

/-- The ambient effects of the script, as pure oracles: `fetch` is
`fetch_page` (returning `""` on failure), `parse` is BeautifulSoup, and `now`
is `datetime.utcnow().isoformat()` (constant within a run). -/
structure Env where
  fetch : String → String
  parse : String → Doc
  now : String

/-- One row of `COUNCIL_SCRAPERS`: the per-site configuration record built in
the module prologue of the script. -/
structure Council where
  council : String
  url : String
  max_pages : Nat
  list_selector : String
  title_sel : String
  location_sel : String
  salary_sel : String
  closing_sel : String
  detail_url_pattern : String
  detail_location : String
  detail_salary : String
  detail_closing : String
  detail_description : String
  pay_band : String

/-- The job-record dictionary appended to `jobs` in `scrape_council`. -/
structure Job where
  title : String
  council : String
  location : String
  salary : String
  pay_band : String
  closing : String
  url : String
  description : String
  published : String
  deriving DecidableEq, Repr

/-- `safe_text(tag)`: `tag.get_text(strip=True) if tag else ""`. -/
def safe_text : Option Tag → String
  | some t => t.text
  | none => ""

/-- Python slicing `s[:n]`: the first `n` code points of `s`. -/
def pyTake (s : String) (n : Nat) : String := String.mk (s.data.take n)

/-! ### `extract_pay_band`: the regular expression `Band\s*([0-9–\-]+)`, `re.I`

`re.search` scans the string left to right and returns the first position at
which the whole pattern matches; `\s*` and `([0-9–\-]+)` are greedy, and since
the whitespace class and the bracket class are disjoint no backtracking can
occur, so a position matches exactly when the (case-insensitive) literal
`band` is followed, after a maximal run of whitespace, by at least one
character of the class.  Character classes are given by code points; `\s` is
modelled by its ASCII members (the Python class additionally contains rare
Unicode whitespace code points, which no input considered here uses). -/

/-- The `\s` class (ASCII part): space, `\t`, `\n`, `\v`, `\f`, `\r`. -/
def pySpace (c : Char) : Bool :=
  c.toNat == 32 || c.toNat == 9 || c.toNat == 10 || c.toNat == 11 ||
    c.toNat == 12 || c.toNat == 13

/-- The bracket class `[0-9–\-]`: decimal digits, the en-dash `–` (U+2013) and
the hyphen `-`. -/
def bandChar (c : Char) : Bool :=
  (48 ≤ c.toNat && c.toNat ≤ 57) || c.toNat == 8211 || c.toNat == 45

/-- Case-insensitive match of the letter `b` (code points of `B` and `b`). -/
def chB (c : Char) : Bool := c.toNat == 66 || c.toNat == 98

/-- Case-insensitive match of the letter `a`. -/
def chA (c : Char) : Bool := c.toNat == 65 || c.toNat == 97

/-- Case-insensitive match of the letter `n`. -/
def chN (c : Char) : Bool := c.toNat == 78 || c.toNat == 110

/-- Case-insensitive match of the letter `d`. -/
def chD (c : Char) : Bool := c.toNat == 68 || c.toNat == 100

/-- Attempt to match `Band\s*([0-9–\-]+)` (case-insensitively) at the head of
the character list; on success return the text captured by the group. -/
def bandAt (l : List Char) : Option (List Char) :=
  match l with
  | b :: a :: n :: d :: rest =>
    if chB b && chA a && chN n && chD d then
      let g := (rest.dropWhile pySpace).takeWhile bandChar
      if g.isEmpty then none else some g
    else none
  | _ => none

/-- `re.search`: try `bandAt` at every position, left to right. -/
def bandSearch : List Char → Option (List Char)
  | [] => none
  | c :: rest =>
    match bandAt (c :: rest) with
    | some g => some g
    | none => bandSearch rest

/-- `extract_pay_band(text, default)` of the script. -/
def extract_pay_band (text default : String) : String :=
  if text = "" then default
  else
    match bandSearch text.data with
    | some g => "Band " ++ String.mk g
    | none => default

/-! ### `build_detail_url` -/

/-- Does `needle` match at the head of `hay`? -/
def headMatch : List Char → List Char → Bool
  | [], _ => true
  | _ :: _, [] => false
  | a :: as, b :: bs => a == b && headMatch as bs

/-- Python's `needle in hay` substring test. -/
def hasSub (needle : List Char) : List Char → Bool
  | [] => needle.isEmpty
  | c :: rest => headMatch needle (c :: rest) || hasSub needle rest

/-- Replace every (non-overlapping, left-to-right) occurrence of `needle` by
`repl`, as Python `str.format` does for a single replacement field; the fuel
argument bounds the recursion by the length of the haystack. -/
def replaceSubAux : Nat → List Char → List Char → List Char → List Char
  | 0, _, _, _ => []
  | _ + 1, _, _, [] => []
  | fuel + 1, needle, repl, c :: rest =>
    if headMatch needle (c :: rest) && !needle.isEmpty then
      repl ++ replaceSubAux fuel needle repl ((c :: rest).drop needle.length)
    else
      c :: replaceSubAux fuel needle repl rest

/-- Replace every occurrence of `needle` in `hay` by `repl`. -/
def replaceSub (needle repl hay : List Char) : List Char :=
  replaceSubAux hay.length needle repl hay

/-- The suffix of `s` after the last occurrence of `sep` (all of `s` when
`sep` does not occur): Python's `s.split(sep)[-1]`. -/
def lastSegment (sep : Char) (s : String) : String :=
  String.mk ((s.data.reverse.takeWhile (fun c => c ≠ sep)).reverse)

/-- The part of `path` up to and including its last `/` (or `/` when `path`
has none). -/
def dirname (path : String) : String :=
  if path.data.contains '/' then
    String.mk ((path.data.reverse.dropWhile (fun c => c ≠ '/')).reverse)
  else "/"

/-- `pre` is a prefix of `s`. -/
def startsWithL (pre s : String) : Bool := headMatch pre.data s.data

/-- Split a URL at the first occurrence of `://` into scheme and remainder. -/
def splitScheme : List Char → Option (List Char × List Char)
  | [] => none
  | c :: rest =>
    if headMatch "://".data (c :: rest) then some ([], (c :: rest).drop 3)
    else
      match splitScheme rest with
      | some (sch, r) => some (c :: sch, r)
      | none => none

/-- Model of `requests.compat.urljoin` (`urllib.parse.urljoin`), restricted to
the reference shapes the script meets: absolute `http(s)` references,
scheme-relative (`//…`), root-relative (`/…`) and plain relative references,
without dot-segment, query or fragment special-casing. -/
def urljoin (base href : String) : String :=
  if href = "" then base
  else if startsWithL "http://" href || startsWithL "https://" href then href
  else
    match splitScheme base.data with
    | some (scheme, rest) =>
      let netloc := rest.takeWhile (fun c => c ≠ '/')
      let path := rest.dropWhile (fun c => c ≠ '/')
      if startsWithL "//" href then String.mk scheme ++ ":" ++ href
      else if startsWithL "/" href then String.mk scheme ++ "://" ++ String.mk netloc ++ href
      else String.mk scheme ++ "://" ++ String.mk netloc ++ dirname (String.mk path) ++ href
    | none => href

/-- `build_detail_url(base, href, pattern)` of the script. -/
def build_detail_url (base href pattern : String) : String :=
  if pattern = "{href}" then urljoin base href
  else if hasSub "{id}".data pattern.data then
    let job_id :=
      if href.data.contains '=' then lastSegment '=' href else lastSegment '/' href
    String.mk (replaceSub "{id}".data job_id.data pattern.data)
  else String.mk (replaceSub "{href}".data href.data pattern.data)

/-! ### `scrape_council`

The per-page and per-card loops are embedded as structural recursions over the
page-index list `range(1, max_pages + 1)` and the card list.  The mutable run
state (`jobs`, `seen`) is threaded explicitly; in addition the state carries
`trace`, the list of URLs passed to `fetch_page`, in call order — it records
the script's network effects so that claims about which pages are fetched can
be stated. -/

/-- The state of one `scrape_council` run: the accumulated `jobs` list, the
`seen` set of detail URLs (a list, queried by membership only), and the log of
`fetch_page` calls. -/
structure ScrapeState where
  jobs : List Job
  seen : List String
  trace : List String
  deriving DecidableEq, Repr

/-- The list-page URL of page `page`:
`f"{base_url}?page={page}" if page > 1 else base_url`. -/
def pageUrl (base : String) (page : Nat) : String :=
  if page > 1 then base ++ "?page=" ++ toString page else base

/-- The salary text of one item:
`safe_text(det_soup.select_one(c["detail_salary"]) or card.select_one(c["salary_sel"]))`. -/
def itemSalary (c : Council) (det : Doc) (card : Card) : String :=
  safe_text ((det.selectOne c.detail_salary).or (card.selectOne c.salary_sel))

/-- The location of one item: the same fallback chain as `itemSalary` followed
by `or "VIC"` on the resulting text. -/
def itemLocation (c : Council) (det : Doc) (card : Card) : String :=
  let loc := safe_text ((det.selectOne c.detail_location).or (card.selectOne c.location_sel))
  if loc = "" then "VIC" else loc

/-- The `for card in cards:` loop body of `scrape_council`. -/
def processCards (env : Env) (c : Council) (listUrl : String) :
    List Card → ScrapeState → ScrapeState
  | [], s => s
  | card :: rest, s =>
    match card.selectOne c.title_sel with
    | none => processCards env c listUrl rest s
    | some titleTag =>
      if titleTag.href = "" then processCards env c listUrl rest s
      else
        let detail_url := build_detail_url listUrl titleTag.href c.detail_url_pattern
        if s.seen.contains detail_url then processCards env c listUrl rest s
        else
          let s1 : ScrapeState :=
            { s with seen := detail_url :: s.seen, trace := s.trace ++ [detail_url] }
          let det_html := env.fetch detail_url
          if det_html = "" then processCards env c listUrl rest s1
          else
            let det := env.parse det_html
            let job : Job :=
              { title := titleTag.text
                council := c.council
                location := itemLocation c det card
                salary := itemSalary c det card
                pay_band := extract_pay_band (itemSalary c det card) c.pay_band
                closing := ""
                url := detail_url
                description := pyTake (safe_text (det.selectOne c.detail_description)) 1000
                published := env.now }
            processCards env c listUrl rest { s1 with jobs := s1.jobs ++ [job] }

/-- The `for page in range(1, max_pages + 1):` loop of `scrape_council`:
fetch the list page (break on failure), skip the page when `list_selector` is
empty (`continue`), break when no cards are found, process the cards, and
break after processing when fewer than 5 cards were found. -/
def scrapeLoop (env : Env) (c : Council) : List Nat → ScrapeState → ScrapeState
  | [], s => s
  | page :: rest, s =>
    let url := pageUrl c.url page
    let html := env.fetch url
    let s1 : ScrapeState := { s with trace := s.trace ++ [url] }
    if html = "" then s1
    else if c.list_selector = "" then scrapeLoop env c rest s1
    else
      let cards := (env.parse html).select c.list_selector
      if cards.isEmpty then s1
      else
        let s2 := processCards env c url cards s1
        if cards.length < 5 then s2 else scrapeLoop env c rest s2

/-- The initial state of a `scrape_council` run. -/
def initState : ScrapeState := ⟨[], [], []⟩

/-- `scrape_council(c)`: the returned `jobs` list. -/
def scrape_council (env : Env) (c : Council) : List Job :=
  (scrapeLoop env c (List.range' 1 c.max_pages) initState).jobs

/-- The URLs `scrape_council(c)` passes to `fetch_page`, in call order. -/
def scrapeTrace (env : Env) (c : Council) : List String :=
  (scrapeLoop env c (List.range' 1 c.max_pages) initState).trace

/-! ### `main`: aggregation and merge into the feed

`feedgen` is an external collaborator; a loaded feed is abstracted to its
entry list, and each `fg.add_entry()` prepends the new entry to that list
(`feedgen`'s default insertion order).  The identities `existing` collected
from the loaded feed are exactly the `id`s of its entries. -/

/-- One feed entry, as the script populates it. -/
structure Entry where
  id : String
  title : String
  link : String
  description : String
  published : String
  deriving DecidableEq, Repr

/-- The rendered CDATA description block of an entry. -/
def renderDescription (j : Job) : String :=
  "<![CDATA[" ++
    "<p><strong>Location:</strong> " ++ j.location ++ "</p>" ++
    "<p><strong>Salary:</strong> " ++ j.salary ++ "</p>" ++
    "<p><strong>Pay Band:</strong> " ++ j.pay_band ++ "</p>" ++
    "<hr>" ++ j.description ++
    "]]>"

/-- The entry built from one new job record. -/
def entryOfJob (j : Job) : Entry :=
  { id := j.url
    title := j.title ++ " – " ++ j.council
    link := j.url
    description := renderDescription j
    published := j.published }

/-- The identities of a feed's entries. -/
def feedIds (entries : List Entry) : List String := entries.map (·.id)

/-- `new_jobs = [j for j in all_jobs if j["url"] not in existing]`. -/
def newJobs (existing : List String) (all_jobs : List Job) : List Job :=
  all_jobs.filter (fun j => !(existing.contains j.url))

/-- Python string `<`: lexicographic comparison by code point. -/
def charsLt : List Char → List Char → Bool
  | _, [] => false
  | [], _ :: _ => true
  | a :: as, b :: bs => a.toNat < b.toNat || (a.toNat == b.toNat && charsLt as bs)

/-- Python string `<` on `String`. -/
def pyStrLt (a b : String) : Bool := charsLt a.data b.data

/-- `sorted(new_jobs, key=lambda x: x["published"], reverse=True)`: a stable
descending sort on the `published` string. -/
def sortDesc (l : List Job) : List Job :=
  l.insertionSort (fun a b => (!pyStrLt a.published b.published) = true)

/-- The `for job in sorted(new_jobs, ...)` loop: each `fg.add_entry()`
prepends one entry to the feed's entry list. -/
def mergeEntries (old : List Entry) (new_jobs : List Job) : List Entry :=
  (sortDesc new_jobs).foldl (fun acc j => entryOfJob j :: acc) old

/-- The whole merge step of `main` against a feed whose load succeeded:
`existing` is the loaded feed's identity set, `new_jobs` is the cross-run
filter of the aggregated records, and the filtered records are added to the
feed. -/
def mergeRun (old : List Entry) (all_jobs : List Job) : List Entry :=
  mergeEntries old (newJobs (feedIds old) all_jobs)

/-- The scrape orchestration of `main`: one `scrape_council` per configured
site, results concatenated in configuration order. -/
def runAll (env : Env) (cs : List Council) : List Job :=
  (cs.map (scrape_council env)).flatten

/-! ### Auxiliary notions used by the statements -/

/-- `env` with the fetch result at the single URL `u` overridden to `h`. -/
def envWith (env : Env) (u h : String) : Env :=
  { env with fetch := fun x => if x = u then h else env.fetch x }

/-- The prefix of `urls` that a loop calling `fetch` on each URL and stopping
at the first failure would fetch (the failing URL included: it was fetched). -/
def fetchRun (env : Env) : List String → List String
  | [] => []
  | u :: rest => if env.fetch u = "" then [u] else u :: fetchRun env rest

/-- Two characters are case variants of each other: equal, or an ASCII
upper/lower pair (`re.IGNORECASE` on the letters of the pattern). -/
def caseVar (a b : Char) : Bool :=
  a == b ||
    (a.toNat + 32 == b.toNat && 65 ≤ a.toNat && a.toNat ≤ 90) ||
    (b.toNat + 32 == a.toNat && 65 ≤ b.toNat && b.toNat ≤ 90)

/-- The text `l` contains (case-insensitively) the literal `band` followed by
optional whitespace and the run `g` of one or more characters of the class
`[0-9–\-]`. -/
def bandOccurrence (l g : List Char) : Prop :=
  ∃ p b a n d sp q,
    l = p ++ [b, a, n, d] ++ sp ++ g ++ q ∧
    chB b ∧ chA a ∧ chN n ∧ chD d ∧
    sp.all pySpace ∧ g ≠ [] ∧ g.all bandChar

/-! ### Concrete test fixtures

Small environments and configurations used to instantiate the theorems on
concrete inputs. -/

/-- A title tag used by the fixture list pages. -/
def tTag : Tag := { text := "Engineer", href := "X" }

/-- A card whose title selector `"a"` yields `tTag`. -/
def tCard : Card := { selectOne := fun s => if s = "a" then some tTag else none }

/-- A card with title text `"T"` and the given href under selector `"a"`. -/
def mkCard (h : String) : Card :=
  { selectOne := fun s => if s = "a" then some { text := "T", href := h } else none }

/-- A document with no selectable content. -/
def emptyDoc : Doc := { select := fun _ => [], selectOne := fun _ => none }

/-- A document whose list selector `"ul"` yields the given cards. -/
def listDoc (cards : List Card) : Doc :=
  { select := fun s => if s = "ul" then cards else [], selectOne := fun _ => none }

/-- Fixture environment: one list page at `"L"` with a single card, and a
detail page at the fixed URL `https://x.vic.gov.au/jobs/fixed`. -/
def tEnv : Env :=
  { fetch := fun u =>
      if u = "L" then "LIST"
      else if u = "https://x.vic.gov.au/jobs/fixed" then "DET" else ""
    parse := fun h => if h = "LIST" then listDoc [tCard] else emptyDoc
    now := "2025-01-01T00:00:00" }

/-- Fixture configuration `A`: all detail URLs resolve to the same fixed URL
(a template pattern with no placeholder). -/
def cA : Council :=
  { council := "A", url := "L", max_pages := 1, list_selector := "ul", title_sel := "a"
    location_sel := "", salary_sel := "", closing_sel := ""
    detail_url_pattern := "https://x.vic.gov.au/jobs/fixed"
    detail_location := "", detail_salary := "", detail_closing := ""
    detail_description := "", pay_band := "Not specified" }

/-- Fixture configuration `B`: as `cA` for a second site. -/
def cB : Council := { cA with council := "B" }

/-- `cA` with an empty list-item selector and two pages to attempt. -/
def cEmpty : Council := { cA with list_selector := "", max_pages := 2 }

/-- Fixture environment for pagination: pages 1 and 2 of site `"P"` carry five
cards each, page 3 carries two, pages 4 and 5 also resolve; every detail page
resolves. -/
def env5 : Env :=
  { fetch := fun u =>
      if u = "P" then "PG1"
      else if u = "P?page=2" then "PG2"
      else if u = "P?page=3" then "PG3"
      else if u = "P?page=4" then "PG4"
      else if u = "P?page=5" then "PG5"
      else if ["Dp1a", "Dp1b", "Dp1c", "Dp1d", "Dp1e", "Dp2a", "Dp2b", "Dp2c", "Dp2d",
               "Dp2e", "Dp3a", "Dp3b"].contains u then "DET"
      else ""
    parse := fun h =>
      if h = "PG1" then listDoc [mkCard "p1a", mkCard "p1b", mkCard "p1c", mkCard "p1d", mkCard "p1e"]
      else if h = "PG2" then listDoc [mkCard "p2a", mkCard "p2b", mkCard "p2c", mkCard "p2d", mkCard "p2e"]
      else if h = "PG3" then listDoc [mkCard "p3a", mkCard "p3b"]
      else if h = "PG4" then listDoc [mkCard "p4a", mkCard "p4b", mkCard "p4c", mkCard "p4d", mkCard "p4e"]
      else if h = "PG5" then listDoc [mkCard "p5a", mkCard "p5b", mkCard "p5c", mkCard "p5d", mkCard "p5e"]
      else emptyDoc
    now := "2025-01-01T00:00:00" }

/-- Configuration for `env5`: five pages allowed, detail URLs `D<href>`. -/
def c5 : Council := { cA with url := "P", max_pages := 5, detail_url_pattern := "D{id}" }

/-- Fixture environment for failure isolation: one list page at `"Q"` with
five cards; the detail page `Eq3` fails to fetch, the other four resolve. -/
def env8 : Env :=
  { fetch := fun u =>
      if u = "Q" then "QL"
      else if u = "Eq3" then ""
      else if ["Eq1", "Eq2", "Eq4", "Eq5"].contains u then "DET" else ""
    parse := fun h =>
      if h = "QL" then listDoc [mkCard "q1", mkCard "q2", mkCard "q3", mkCard "q4", mkCard "q5"]
      else emptyDoc
    now := "2025-01-01T00:00:00" }

/-- Configuration for `env8`: one page, detail URLs `E<href>`. -/
def c8 : Council := { cA with url := "Q", max_pages := 1, detail_url_pattern := "E{id}" }

/-- A concrete job record with the identity of the spec's dedup example. -/
def j42 : Job :=
  { title := "Planner", council := "A", location := "VIC", salary := "", pay_band := "Not specified"
    closing := "", url := "https://x.vic.gov.au/jobs/42", description := ""
    published := "2025-01-01T00:00:00" }

/-- The feed entry of `j42`. -/
def e42 : Entry := entryOfJob j42

/-- The job record that `scrape_council tEnv cA` emits. -/
def tJob : Job :=
  { title := "Engineer", council := "A", location := "VIC", salary := ""
    pay_band := "Not specified", closing := "", url := "https://x.vic.gov.au/jobs/fixed"
    description := "", published := "2025-01-01T00:00:00" }

/-- A detail document whose salary and location selectors (`"ds"`, `"dl"`)
match nodes with empty stripped text. -/
def detEmptyDoc : Doc :=
  { select := fun _ => []
    selectOne := fun s =>
      if s = "ds" then some { text := "", href := "" }
      else if s = "dl" then some { text := "", href := "" } else none }

/-- A card whose list-scoped salary and location selectors (`"ls"`, `"ll"`)
match nodes with non-empty text. -/
def listFullCard : Card :=
  { selectOne := fun s =>
      if s = "ls" then some { text := "$80k", href := "" }
      else if s = "ll" then some { text := "Geelong", href := "" } else none }

/-- Configuration exercising the detail/list fallback selectors. -/
def c10 : Council :=
  { cA with detail_salary := "ds", salary_sel := "ls", detail_location := "dl"
            location_sel := "ll" }

/-! ## Lemmas about the pagination loop -/

/-- With an empty list-item selector the page loop processes nothing but keeps
fetching: it visits every page URL up to the first fetch failure. -/
theorem scrapeLoop_emptySel (env : Env) (c : Council) (hsel : c.list_selector = "") :
    ∀ ps s, scrapeLoop env c ps s =
      { s with trace := s.trace ++ fetchRun env (ps.map (pageUrl c.url)) } := by
  intro ps
  induction ps with
  | nil => intro s; simp [scrapeLoop, fetchRun]
  | cons page rest ih =>
    intro s
    simp only [scrapeLoop, List.map_cons, fetchRun, hsel, if_pos]
    by_cases hf : env.fetch (pageUrl c.url page) = ""
    · simp [hf]
    · simp [hf, ih]

/-- `processCards` only changes configuration-relevant behaviour through the
fields it reads; two configurations agreeing on those fields process cards
identically. -/
theorem processCards_congr (env : Env) (c c' : Council) (listUrl : String)
    (ht : c'.title_sel = c.title_sel) (hp : c'.detail_url_pattern = c.detail_url_pattern)
    (hco : c'.council = c.council) (hpb : c'.pay_band = c.pay_band)
    (hds : c'.detail_salary = c.detail_salary) (hss : c'.salary_sel = c.salary_sel)
    (hdl : c'.detail_location = c.detail_location) (hls : c'.location_sel = c.location_sel)
    (hdd : c'.detail_description = c.detail_description) :
    ∀ cards s, processCards env c' listUrl cards s = processCards env c listUrl cards s := by
  intro cards
  induction cards with
  | nil => intro s; rfl
  | cons card rest ih =>
    intro s
    simp only [processCards, itemSalary, itemLocation, ht, hp, hco, hpb, hds, hss, hdl,
      hls, hdd, ih]

/-- Congruence for the whole page loop. -/
theorem scrapeLoop_congr (env : Env) (c c' : Council)
    (hu : c'.url = c.url) (hl : c'.list_selector = c.list_selector)
    (ht : c'.title_sel = c.title_sel) (hp : c'.detail_url_pattern = c.detail_url_pattern)
    (hco : c'.council = c.council) (hpb : c'.pay_band = c.pay_band)
    (hds : c'.detail_salary = c.detail_salary) (hss : c'.salary_sel = c.salary_sel)
    (hdl : c'.detail_location = c.detail_location) (hls : c'.location_sel = c.location_sel)
    (hdd : c'.detail_description = c.detail_description) :
    ∀ ps s, scrapeLoop env c' ps s = scrapeLoop env c ps s := by
  intro ps
  induction ps with
  | nil => intro s; rfl
  | cons page rest ih =>
    intro s
    simp only [scrapeLoop, hu, hl,
      processCards_congr env c c' _ ht hp hco hpb hds hss hdl hls hdd, ih]

/-- Every job record that the card loop appends has an empty `closing` field. -/
theorem processCards_closing (env : Env) (c : Council) (listUrl : String) :
    ∀ cards s, (∀ j ∈ s.jobs, j.closing = "") →
      ∀ j ∈ (processCards env c listUrl cards s).jobs, j.closing = "" := by
  intro cards
  induction cards with
  | nil => intro s hs; exact hs
  | cons card rest ih =>
    intro s hs
    simp only [processCards]
    cases h : card.selectOne c.title_sel with
    | none => exact ih s hs
    | some t =>
      dsimp only
      by_cases h1 : t.href = ""
      · rw [if_pos h1]; exact ih s hs
      · rw [if_neg h1]
        by_cases h2 : s.seen.contains (build_detail_url listUrl t.href c.detail_url_pattern) = true
        · rw [if_pos h2]; exact ih s hs
        · rw [if_neg h2]
          by_cases h3 : env.fetch (build_detail_url listUrl t.href c.detail_url_pattern) = ""
          · rw [if_pos h3]; exact ih _ hs
          · rw [if_neg h3]
            apply ih
            intro j hj
            rcases List.mem_append.mp hj with hj | hj
            · exact hs j hj
            · rw [List.mem_singleton.mp hj]

/-- Every job record accumulated by the page loop has an empty `closing`
field. -/
theorem scrapeLoop_closing (env : Env) (c : Council) :
    ∀ ps s, (∀ j ∈ s.jobs, j.closing = "") →
      ∀ j ∈ (scrapeLoop env c ps s).jobs, j.closing = "" := by
  intro ps
  induction ps with
  | nil => intro s hs; exact hs
  | cons page rest ih =>
    intro s hs
    simp only [scrapeLoop]
    by_cases hf : env.fetch (pageUrl c.url page) = ""
    · rw [if_pos hf]; exact hs
    · rw [if_neg hf]
      by_cases hsel : c.list_selector = ""
      · rw [if_pos hsel]; exact ih _ hs
      · rw [if_neg hsel]
        by_cases hc : ((env.parse (env.fetch (pageUrl c.url page))).select c.list_selector).isEmpty = true
        · rw [if_pos hc]; exact hs
        · rw [if_neg hc]
          by_cases h5 : ((env.parse (env.fetch (pageUrl c.url page))).select c.list_selector).length < 5
          · rw [if_pos h5]
            exact processCards_closing env c _ _ _ hs
          · rw [if_neg h5]
            exact ih _ (processCards_closing env c _ _ _ hs)

/-! ## C9 -/

/-- C9: every job record emitted by `scrape_council` has an empty closing
field, for every environment and every configuration; moreover the configured
closing selectors (`closing_sel`, `detail_closing`) are never consulted:
changing them to anything does not change the result. -/
theorem scrape_closing_empty_and_unused (env : Env) (c : Council) (x y : String) :
    (∀ j ∈ scrape_council env c, j.closing = "") ∧
    scrape_council env { c with closing_sel := x, detail_closing := y } = scrape_council env c := by
  constructor
  · exact scrapeLoop_closing env c _ initState (by intro j hj; cases hj)
  · unfold scrape_council
    rw [scrapeLoop_congr env c { c with closing_sel := x, detail_closing := y }
      rfl rfl rfl rfl rfl rfl rfl rfl rfl rfl rfl]

/-- Witness for C9 at a concrete run: the fixture scrape emits `tJob`, whose
closing field is empty. -/
theorem scrape_closing_empty_and_unused_witness :
    tJob ∈ scrape_council tEnv cA ∧ tJob.closing = "" :=
  ⟨by decide, (scrape_closing_empty_and_unused tEnv cA "x" "y").1 tJob (by decide)⟩

/-! ## C2 -/

/-- C2 counterexample: with an empty list-item selector (configuration
`cEmpty`, two pages allowed) the loop does not stop at page 1 — the page-2
list URL `"L?page=2"` is also passed to `fetch_page`, contradicting the claim
that no further list page is fetched. -/
theorem empty_selector_fetches_next_page :
    scrapeTrace tEnv cEmpty = ["L", "L?page=2"] ∧ pageUrl cEmpty.url 2 = "L?page=2" := by
  constructor
  · decide
  · decide

/-- C2 amended: an empty list-item selector does not stop pagination; the
page is merely skipped (`continue`).  No job is ever produced, and the loop
keeps fetching one list page per page index — up to `max_pages` of them,
stopping early only at the first fetch failure. -/
theorem empty_selector_keeps_paginating (env : Env) (c : Council)
    (hsel : c.list_selector = "") :
    scrape_council env c = [] ∧
    scrapeTrace env c = fetchRun env ((List.range' 1 c.max_pages).map (pageUrl c.url)) := by
  unfold scrape_council scrapeTrace
  rw [scrapeLoop_emptySel env c hsel]
  exact ⟨rfl, rfl⟩

/-- Witness for C2's amended theorem on the fixture: two pages configured,
page 1 fetched and skipped, page 2 fetched (and its fetch fails, ending the
run). -/
theorem empty_selector_keeps_paginating_witness :
    cEmpty.list_selector = "" ∧
    scrape_council tEnv cEmpty = [] ∧
    scrapeTrace tEnv cEmpty =
      fetchRun tEnv ((List.range' 1 cEmpty.max_pages).map (pageUrl cEmpty.url)) :=
  ⟨rfl, empty_selector_keeps_paginating tEnv cEmpty rfl⟩

/-! ## C4 -/

/-- C4: when a fetched list page yields fewer than five candidate items, the
loop behaves as if this page were the last one configured (the remaining page
indices are irrelevant), and — provided the fetch succeeded and the page was
non-empty — the page itself is still processed. -/
theorem few_cards_stop_pagination (env : Env) (c : Council) (page : Nat)
    (rest : List Nat) (s : ScrapeState)
    (hsel : c.list_selector ≠ "")
    (hfew : env.fetch (pageUrl c.url page) ≠ "" →
      ((env.parse (env.fetch (pageUrl c.url page))).select c.list_selector).length < 5) :
    scrapeLoop env c (page :: rest) s = scrapeLoop env c [page] s ∧
    (env.fetch (pageUrl c.url page) ≠ "" →
      ((env.parse (env.fetch (pageUrl c.url page))).select c.list_selector).isEmpty = false →
      scrapeLoop env c [page] s =
        processCards env c (pageUrl c.url page)
          ((env.parse (env.fetch (pageUrl c.url page))).select c.list_selector)
          { s with trace := s.trace ++ [pageUrl c.url page] }) := by
  constructor
  · by_cases hf : env.fetch (pageUrl c.url page) = ""
    · simp only [scrapeLoop]
      rw [if_pos hf, if_pos hf]
    · simp only [scrapeLoop]
      rw [if_neg hf, if_neg hf, if_neg hsel, if_neg hsel]
      by_cases hc : ((env.parse (env.fetch (pageUrl c.url page))).select c.list_selector).isEmpty = true
      · rw [if_pos hc, if_pos hc]
      · rw [if_neg hc, if_neg hc, if_pos (hfew hf), if_pos (hfew hf)]
  · intro hf hc
    simp only [scrapeLoop]
    rw [if_neg hf, if_neg hsel, hc]
    simp only [Bool.false_eq_true, if_false, ite_self]

/-- Witness for C4 on the fixture `env5`/`c5`: page 3 yields two cards, so
the loop over pages `3 :: [4, 5]` equals the loop over `[3]` alone, and in the
full five-page run the page-4 and page-5 list URLs are never fetched while the
two page-3 items are still emitted. -/
theorem few_cards_stop_pagination_witness :
    c5.list_selector ≠ "" ∧
    scrapeLoop env5 c5 (3 :: [4, 5]) initState = scrapeLoop env5 c5 [3] initState ∧
    pageUrl c5.url 4 ∉ scrapeTrace env5 c5 ∧
    pageUrl c5.url 5 ∉ scrapeTrace env5 c5 ∧
    "Dp3a" ∈ (scrape_council env5 c5).map (fun j => j.url) ∧
    "Dp3b" ∈ (scrape_council env5 c5).map (fun j => j.url) :=
  ⟨by decide,
   (few_cards_stop_pagination env5 c5 3 [4, 5] initState (by decide) (fun _ => by decide)).1,
   by decide, by decide, by decide, by decide⟩

/-! ## Lemmas about the merge step -/

/-- The entry-prepending loop, in closed form. -/
theorem mergeEntries_eq (old : List Entry) (l : List Job) :
    mergeEntries old l = ((sortDesc l).map entryOfJob).reverse ++ old := by
  unfold mergeEntries
  generalize sortDesc l = m
  induction m generalizing old with
  | nil => simp
  | cons a m ih => simp [ih]

/-- The identities of the merged feed: the filtered new records' URLs
(reversed, in sorted order) followed by the prior identities. -/
theorem feedIds_mergeRun (old : List Entry) (jobs : List Job) :
    feedIds (mergeRun old jobs) =
      ((sortDesc (newJobs (feedIds old) jobs)).map (fun j => j.url)).reverse ++ feedIds old := by
  unfold mergeRun feedIds
  rw [mergeEntries_eq]
  simp [entryOfJob, Function.comp_def]

/-- `sortDesc` is a permutation of its input. -/
theorem sortDesc_perm (l : List Job) : List.Perm (sortDesc l) l :=
  List.perm_insertionSort _ l

/-- `List.contains` agrees with membership on strings. -/
theorem string_contains_iff (l : List String) (a : String) :
    l.contains a = true ↔ a ∈ l := by
  simp [List.contains, List.elem_iff]

/-- Every aggregated record's URL appears among the merged feed's
identities. -/
theorem mem_feedIds_mergeRun (old : List Entry) (jobs : List Job) (j : Job)
    (hj : j ∈ jobs) : j.url ∈ feedIds (mergeRun old jobs) := by
  rw [feedIds_mergeRun]
  by_cases h : j.url ∈ feedIds old
  · exact List.mem_append_right _ h
  · apply List.mem_append_left
    rw [List.mem_reverse]
    apply List.mem_map_of_mem
    rw [(sortDesc_perm _).mem_iff]
    unfold newJobs
    rw [List.mem_filter]
    refine ⟨hj, ?_⟩
    rw [Bool.not_eq_true', ← Bool.not_eq_true]
    intro hc
    exact h ((string_contains_iff _ _).mp hc)

/-! ## C6 -/

/-- C6: the merge step is idempotent — running it a second time over the same
aggregated record set changes nothing (every record's identity is already in
the feed, so the cross-run filter removes them all), and records whose
identity the feed already contains add zero entries on merge. -/
theorem merge_idempotent_and_dedup :
    (∀ (old : List Entry) (jobs : List Job),
      mergeRun (mergeRun old jobs) jobs = mergeRun old jobs) ∧
    (∀ (old : List Entry) (jobs : List Job),
      mergeRun old (jobs.filter (fun j => (feedIds old).contains j.url)) = old) := by
  constructor
  · intro old jobs
    have hnil : newJobs (feedIds (mergeRun old jobs)) jobs = [] := by
      unfold newJobs
      rw [List.filter_eq_nil_iff]
      intro j hj
      rw [Bool.not_eq_true', Bool.not_eq_false]
      exact (string_contains_iff _ _).mpr (mem_feedIds_mergeRun old jobs j hj)
    show mergeEntries (mergeRun old jobs) (newJobs (feedIds (mergeRun old jobs)) jobs) =
      mergeRun old jobs
    rw [hnil]
    rfl
  · intro old jobs
    have hnil : newJobs (feedIds old) (jobs.filter (fun j => (feedIds old).contains j.url)) = [] := by
      unfold newJobs
      rw [List.filter_eq_nil_iff]
      intro j hj
      rw [Bool.not_eq_true', Bool.not_eq_false]
      exact (List.mem_filter.mp hj).2
    show mergeEntries old _ = old
    rw [hnil]
    rfl

/-- Witness for C6 on concrete inputs: merging `[j42]` twice equals merging it
once, and a feed already containing `https://x.vic.gov.au/jobs/42` gains
nothing from records rediscovering that identity. -/
theorem merge_idempotent_and_dedup_witness :
    mergeRun (mergeRun [] [j42]) [j42] = mergeRun [] [j42] ∧
    mergeRun [e42] ([j42].filter (fun j => (feedIds [e42]).contains j.url)) = [e42] :=
  ⟨merge_idempotent_and_dedup.1 [] [j42], merge_idempotent_and_dedup.2 [e42] [j42]⟩

/-! ## C1 -/

/-- The intra-run dedup invariant of the card loop: accumulated job URLs are
pairwise distinct and all recorded in `seen`. -/
theorem processCards_urls (env : Env) (c : Council) (listUrl : String) :
    ∀ cards s,
      (s.jobs.map (fun j => j.url)).Pairwise (· ≠ ·) →
      (∀ u ∈ s.jobs.map (fun j => j.url), u ∈ s.seen) →
      (((processCards env c listUrl cards s).jobs.map (fun j => j.url)).Pairwise (· ≠ ·) ∧
        ∀ u ∈ (processCards env c listUrl cards s).jobs.map (fun j => j.url),
          u ∈ (processCards env c listUrl cards s).seen) := by
  intro cards
  induction cards with
  | nil => intro s h1 h2; exact ⟨h1, h2⟩
  | cons card rest ih =>
    intro s h1 h2
    simp only [processCards]
    cases h : card.selectOne c.title_sel with
    | none => exact ih s h1 h2
    | some t =>
      dsimp only
      by_cases hh : t.href = ""
      · rw [if_pos hh]; exact ih s h1 h2
      · rw [if_neg hh]
        by_cases hseen :
            s.seen.contains (build_detail_url listUrl t.href c.detail_url_pattern) = true
        · rw [if_pos hseen]; exact ih s h1 h2
        · rw [if_neg hseen]
          have hnot : build_detail_url listUrl t.href c.detail_url_pattern ∉ s.seen := by
            intro hmem
            exact hseen ((string_contains_iff _ _).mpr hmem)
          by_cases hf : env.fetch (build_detail_url listUrl t.href c.detail_url_pattern) = ""
          · rw [if_pos hf]
            apply ih
            · exact h1
            · intro u hu
              exact List.mem_cons_of_mem _ (h2 u hu)
          · rw [if_neg hf]
            apply ih
            · rw [List.map_append, List.pairwise_append]
              refine ⟨h1, List.pairwise_singleton _ _, ?_⟩
              intro a ha b hb
              rw [List.mem_map] at hb
              rcases hb with ⟨jb, hjb, hb⟩
              rw [List.mem_singleton] at hjb
              subst hjb
              subst hb
              intro heq
              rw [heq] at ha
              exact hnot (h2 _ ha)
            · intro u hu
              rw [List.map_append] at hu
              rcases List.mem_append.mp hu with hu | hu
              · exact List.mem_cons_of_mem _ (h2 u hu)
              · rw [List.mem_map] at hu
                rcases hu with ⟨jb, hjb, hb⟩
                rw [List.mem_singleton] at hjb
                subst hjb
                subst hb
                exact List.mem_cons_self _ _

/-- The dedup invariant carried through the page loop. -/
theorem scrapeLoop_urls (env : Env) (c : Council) :
    ∀ ps s,
      (s.jobs.map (fun j => j.url)).Pairwise (· ≠ ·) →
      (∀ u ∈ s.jobs.map (fun j => j.url), u ∈ s.seen) →
      (((scrapeLoop env c ps s).jobs.map (fun j => j.url)).Pairwise (· ≠ ·) ∧
        ∀ u ∈ (scrapeLoop env c ps s).jobs.map (fun j => j.url),
          u ∈ (scrapeLoop env c ps s).seen) := by
  intro ps
  induction ps with
  | nil => intro s h1 h2; exact ⟨h1, h2⟩
  | cons page rest ih =>
    intro s h1 h2
    simp only [scrapeLoop]
    by_cases hf : env.fetch (pageUrl c.url page) = ""
    · rw [if_pos hf]; exact ⟨h1, h2⟩
    · rw [if_neg hf]
      by_cases hsel : c.list_selector = ""
      · rw [if_pos hsel]; exact ih _ h1 h2
      · rw [if_neg hsel]
        by_cases hc : ((env.parse (env.fetch (pageUrl c.url page))).select c.list_selector).isEmpty = true
        · rw [if_pos hc]; exact ⟨h1, h2⟩
        · rw [if_neg hc]
          have hp := processCards_urls env c (pageUrl c.url page)
            ((env.parse (env.fetch (pageUrl c.url page))).select c.list_selector)
            { s with trace := s.trace ++ [pageUrl c.url page] } h1 h2
          by_cases h5 : ((env.parse (env.fetch (pageUrl c.url page))).select c.list_selector).length < 5
          · rw [if_pos h5]; exact hp
          · rw [if_neg h5]; exact ih _ hp.1 hp.2

/-- C1 counterexample: two site configurations (`cA`, `cB`) discover the same
detail URL; the merge of the aggregated run into an empty feed yields two
entries with the same identity, so identities of the persisted feed are not
pairwise distinct. -/
theorem feed_duplicate_identity :
    feedIds (mergeRun [] (runAll tEnv [cA, cB])) =
      ["https://x.vic.gov.au/jobs/fixed", "https://x.vic.gov.au/jobs/fixed"] ∧
    ¬ (mergeRun [] (runAll tEnv [cA, cB])).Pairwise (fun e1 e2 => e1.id ≠ e2.id) :=
  ⟨by decide, by decide⟩

/-- C1 amended: the merged feed's identities are pairwise distinct whenever
the prior feed's identities are pairwise distinct and the aggregated record
list carries pairwise-distinct URLs (in particular whenever no two distinct
sites discover the same detail URL).  Unconditionally, a single site's scrape
emits pairwise-distinct URLs, and no record surviving the cross-run filter
duplicates an existing feed identity. -/
theorem feed_identities_unique_amended :
    (∀ (old : List Entry) (jobs : List Job),
      (feedIds old).Pairwise (· ≠ ·) →
      (jobs.map (fun j => j.url)).Pairwise (· ≠ ·) →
      (feedIds (mergeRun old jobs)).Pairwise (· ≠ ·)) ∧
    (∀ env c, ((scrape_council env c).map (fun j => j.url)).Pairwise (· ≠ ·)) ∧
    (∀ (old : List Entry) (jobs : List Job) (j : Job),
      j ∈ newJobs (feedIds old) jobs → (feedIds old).contains j.url = false) := by
  refine ⟨?_, ?_, ?_⟩
  · intro old jobs hold hjobs
    rw [feedIds_mergeRun, List.pairwise_append]
    have hsub : ((sortDesc (newJobs (feedIds old) jobs)).map (fun j => j.url)).Pairwise (· ≠ ·) := by
      have hperm : List.Perm ((sortDesc (newJobs (feedIds old) jobs)).map (fun j => j.url))
          ((newJobs (feedIds old) jobs).map (fun j => j.url)) :=
        (sortDesc_perm _).map _
      refine (List.Perm.pairwise_iff (fun h => Ne.symm h) hperm).mpr ?_
      exact List.Pairwise.sublist ((List.filter_sublist jobs).map (fun j => j.url)) hjobs
    refine ⟨List.pairwise_reverse.mpr (hsub.imp (fun h => Ne.symm h)), hold, ?_⟩
    · intro a ha b hb
      rw [List.mem_reverse, List.mem_map] at ha
      rcases ha with ⟨ja, hja, ha⟩
      rw [(sortDesc_perm _).mem_iff] at hja
      subst ha
      have hcontains : (feedIds old).contains ja.url = false := by
        unfold newJobs at hja
        have := (List.mem_filter.mp hja).2
        rwa [Bool.not_eq_true'] at this
      intro heq
      subst heq
      rw [← Bool.not_eq_true] at hcontains
      exact hcontains ((string_contains_iff _ _).mpr hb)
  · intro env c
    exact (scrapeLoop_urls env c (List.range' 1 c.max_pages) initState
      (by simp [initState]) (by simp [initState])).1
  · intro old jobs j hj
    unfold newJobs at hj
    have := (List.mem_filter.mp hj).2
    rwa [Bool.not_eq_true'] at this

/-- Witness for C1's amended theorem: each conjunct applied to concrete
inputs. -/
theorem feed_identities_unique_amended_witness :
    (feedIds (mergeRun [] [j42])).Pairwise (· ≠ ·) ∧
    ((scrape_council tEnv cA).map (fun j => j.url)).Pairwise (· ≠ ·) ∧
    (feedIds ([] : List Entry)).contains j42.url = false :=
  ⟨feed_identities_unique_amended.1 [] [j42] (by decide) (by decide),
   feed_identities_unique_amended.2.1 tEnv cA,
   feed_identities_unique_amended.2.2 [] [j42] j42 (by decide)⟩

/-! ## C8 -/

/-- `envWith` leaves `parse` unchanged. -/
theorem envWith_parse (env : Env) (u h : String) : (envWith env u h).parse = env.parse := rfl

/-- `envWith` leaves `now` unchanged. -/
theorem envWith_now (env : Env) (u h : String) : (envWith env u h).now = env.now := rfl

/-- The fetch function of `envWith`. -/
theorem envWith_fetch (env : Env) (u h x : String) :
    (envWith env u h).fetch x = if x = u then h else env.fetch x := rfl

/-- Simulation for the card loop: a run in which the detail fetch of `u`
fails produces the same `seen` set and fetch trace as a run in which it
succeeds, and exactly the successful run's job list with the `u`-record
removed. -/
theorem processCards_isolate (env : Env) (u h : String) (c : Council) (listUrl : String)
    (hfail : env.fetch u = "") (hh : h ≠ "") :
    ∀ cards s s',
      s'.seen = s.seen → s'.trace = s.trace →
      s.jobs = s'.jobs.filter (fun j => j.url != u) →
      ((processCards env c listUrl cards s).seen =
          (processCards (envWith env u h) c listUrl cards s').seen ∧
        (processCards env c listUrl cards s).trace =
          (processCards (envWith env u h) c listUrl cards s').trace ∧
        (processCards env c listUrl cards s).jobs =
          ((processCards (envWith env u h) c listUrl cards s').jobs).filter
            (fun j => j.url != u)) := by
  intro cards
  induction cards with
  | nil =>
    intro s s' hseen htr hjobs
    exact ⟨hseen.symm, htr.symm, hjobs⟩
  | cons card rest ih =>
    intro s s' hseen htr hjobs
    simp only [processCards, envWith_parse, envWith_now, envWith_fetch, hseen, htr]
    cases hsel : card.selectOne c.title_sel with
    | none => exact ih s s' hseen htr hjobs
    | some t =>
      dsimp only
      by_cases hhr : t.href = ""
      · rw [if_pos hhr, if_pos hhr]; exact ih s s' hseen htr hjobs
      · rw [if_neg hhr, if_neg hhr]
        by_cases hcont :
            s.seen.contains (build_detail_url listUrl t.href c.detail_url_pattern) = true
        · rw [if_pos hcont, if_pos hcont]; exact ih s s' hseen htr hjobs
        · rw [if_neg hcont, if_neg hcont]
          by_cases hdu : build_detail_url listUrl t.href c.detail_url_pattern = u
          · rw [hdu, if_pos rfl, if_pos hfail, if_neg hh]
            apply ih
            · simp [hseen, hdu]
            · simp [htr, hdu]
            · rw [List.filter_append, hjobs]
              simp
          · rw [if_neg hdu]
            by_cases hf : env.fetch (build_detail_url listUrl t.href c.detail_url_pattern) = ""
            · rw [if_pos hf, if_pos hf]
              apply ih
              · simp [hseen]
              · simp [htr]
              · exact hjobs
            · rw [if_neg hf, if_neg hf]
              apply ih
              · simp [hseen]
              · simp [htr]
              · rw [List.filter_append, hjobs]
                simp [hdu]

/-- Simulation for the page loop, provided the overridden URL is not one of
the list-page URLs. -/
theorem scrapeLoop_isolate (env : Env) (u h : String) (c : Council)
    (hfail : env.fetch u = "") (hh : h ≠ "") :
    ∀ ps s s', (∀ p ∈ ps, pageUrl c.url p ≠ u) →
      s'.seen = s.seen → s'.trace = s.trace →
      s.jobs = s'.jobs.filter (fun j => j.url != u) →
      ((scrapeLoop env c ps s).seen = (scrapeLoop (envWith env u h) c ps s').seen ∧
        (scrapeLoop env c ps s).trace = (scrapeLoop (envWith env u h) c ps s').trace ∧
        (scrapeLoop env c ps s).jobs =
          ((scrapeLoop (envWith env u h) c ps s').jobs).filter (fun j => j.url != u)) := by
  intro ps
  induction ps with
  | nil =>
    intro s s' _ hseen htr hjobs
    exact ⟨hseen.symm, htr.symm, hjobs⟩
  | cons page rest ih =>
    intro s s' hp hseen htr hjobs
    have hpu : pageUrl c.url page ≠ u := hp page (List.mem_cons_self _ _)
    have hrest : ∀ p ∈ rest, pageUrl c.url p ≠ u :=
      fun p hmem => hp p (List.mem_cons_of_mem _ hmem)
    simp only [scrapeLoop, envWith_parse, envWith_fetch, if_neg hpu, htr]
    by_cases hf : env.fetch (pageUrl c.url page) = ""
    · rw [if_pos hf, if_pos hf]
      exact ⟨hseen.symm, rfl, hjobs⟩
    · rw [if_neg hf, if_neg hf]
      by_cases hsel : c.list_selector = ""
      · rw [if_pos hsel, if_pos hsel]
        exact ih _ _ hrest hseen rfl hjobs
      · rw [if_neg hsel, if_neg hsel]
        by_cases hc :
            ((env.parse (env.fetch (pageUrl c.url page))).select c.list_selector).isEmpty = true
        · rw [if_pos hc, if_pos hc]
          exact ⟨hseen.symm, rfl, hjobs⟩
        · rw [if_neg hc, if_neg hc]
          have hpc := processCards_isolate env u h c (pageUrl c.url page) hfail hh
            ((env.parse (env.fetch (pageUrl c.url page))).select c.list_selector)
            { s with trace := s.trace ++ [pageUrl c.url page] }
            { s' with trace := s.trace ++ [pageUrl c.url page] }
            hseen rfl hjobs
          by_cases h5 :
              ((env.parse (env.fetch (pageUrl c.url page))).select c.list_selector).length < 5
          · rw [if_pos h5, if_pos h5]
            exact hpc
          · rw [if_neg h5, if_neg h5]
            exact ih _ _ hrest hpc.1.symm hpc.2.1.symm hpc.2.2

/-- C8: a detail-page fetch failure at URL `u` is isolated to that item.
Relative to the same run in which the fetch of `u` succeeds (with any
non-empty body `h`), the failing run fetches exactly the same URLs and emits
exactly the same job records minus the one for `u`; in particular no record
(partial or otherwise) is emitted for `u`, and every other item of every page
is still emitted. -/
theorem detail_fetch_failure_isolated (env : Env) (u h : String) (c : Council)
    (hfail : env.fetch u = "") (hh : h ≠ "")
    (hlist : ∀ p ∈ List.range' 1 c.max_pages, pageUrl c.url p ≠ u) :
    scrape_council env c =
      (scrape_council (envWith env u h) c).filter (fun j => j.url != u) ∧
    scrapeTrace env c = scrapeTrace (envWith env u h) c ∧
    ∀ j ∈ scrape_council env c, j.url ≠ u := by
  have hsim := scrapeLoop_isolate env u h c hfail hh (List.range' 1 c.max_pages)
    initState initState hlist rfl rfl rfl
  refine ⟨hsim.2.2, hsim.2.1, ?_⟩
  intro j hj
  have heq : scrape_council env c =
      (scrape_council (envWith env u h) c).filter (fun j => j.url != u) := hsim.2.2
  rw [heq] at hj
  have := (List.mem_filter.mp hj).2
  simpa using this

/-- Witness for C8 on the fixture `env8`/`c8`: the detail fetch of `Eq3`
fails; the remaining four of the five candidates are still emitted, and the
failing run is the filter of the successful run. -/
theorem detail_fetch_failure_isolated_witness :
    env8.fetch "Eq3" = "" ∧
    (scrape_council env8 c8).map (fun j => j.url) = ["Eq1", "Eq2", "Eq4", "Eq5"] ∧
    (scrape_council (envWith env8 "Eq3" "DET") c8).map (fun j => j.url) =
      ["Eq1", "Eq2", "Eq3", "Eq4", "Eq5"] ∧
    scrape_council env8 c8 =
      (scrape_council (envWith env8 "Eq3" "DET") c8).filter (fun j => j.url != "Eq3") :=
  ⟨by decide, by decide, by decide,
   (detail_fetch_failure_isolated env8 "Eq3" "DET" c8 (by decide) (by decide) (by decide)).1⟩

/-! ## C10 -/

/-- C10: the detail/list fallback for salary and location is decided by
selector match alone.  When the detail selector matches some node, the salary
is that node's stripped text whatever it is (the card is never consulted — the
result is the same for any card), so a matched node with empty text gives the
empty salary; likewise location then falls through to the fixed default
`"VIC"`.  Only when the detail selector matches no node at all is the
list-scoped selector consulted. -/
theorem fallback_by_selector_match (c : Council) (det : Doc) (card card' : Card) (t : Tag) :
    (det.selectOne c.detail_salary = some t →
      itemSalary c det card = t.text ∧ itemSalary c det card = itemSalary c det card') ∧
    (det.selectOne c.detail_salary = some t → t.text = "" → itemSalary c det card = "") ∧
    (det.selectOne c.detail_location = some t → t.text = "" →
      itemLocation c det card = "VIC") ∧
    (det.selectOne c.detail_salary = none →
      itemSalary c det card = safe_text (card.selectOne c.salary_sel)) := by
  refine ⟨?_, ?_, ?_, ?_⟩
  · intro h
    unfold itemSalary
    rw [h]
    exact ⟨rfl, rfl⟩
  · intro h ht
    unfold itemSalary
    rw [h]
    exact ht
  · intro h ht
    unfold itemLocation
    rw [h]
    simp [safe_text, ht]
  · intro h
    unfold itemSalary
    rw [h]
    cases card.selectOne c.salary_sel <;> rfl

/-- Witness for C10 on the fixtures: the detail document matches the salary
and location selectors with empty-text nodes while the card would supply
non-empty values; salary is the empty string and location is `"VIC"`. -/
theorem fallback_by_selector_match_witness :
    detEmptyDoc.selectOne c10.detail_salary = some { text := "", href := "" } ∧
    itemSalary c10 detEmptyDoc listFullCard = "" ∧
    itemLocation c10 detEmptyDoc listFullCard = "VIC" ∧
    safe_text (listFullCard.selectOne c10.salary_sel) = "$80k" :=
  ⟨by decide,
   (fallback_by_selector_match c10 detEmptyDoc listFullCard listFullCard
     { text := "", href := "" }).2.1 (by decide) rfl,
   (fallback_by_selector_match c10 detEmptyDoc listFullCard listFullCard
     { text := "", href := "" }).2.2.1 (by decide) rfl,
   by decide⟩

/-! ## C5 -/

/-- `List.contains` agrees with membership on characters. -/
theorem char_contains_iff (l : List Char) (a : Char) :
    l.contains a = true ↔ a ∈ l := by
  simp [List.contains, List.elem_iff]

/-- `takeWhile` stops exactly at the first failing element. -/
theorem takeWhile_middle (p : Char → Bool) :
    ∀ (xs : List Char) (y : Char) (ys : List Char),
      (∀ x ∈ xs, p x = true) → p y = false →
      List.takeWhile p (xs ++ y :: ys) = xs := by
  intro xs
  induction xs with
  | nil =>
    intro y ys _ hy
    simp [List.takeWhile_cons, hy]
  | cons x xs ih =>
    intro y ys hall hy
    have hx : p x = true := hall x (List.mem_cons_self _ _)
    simp only [List.cons_append, List.takeWhile_cons, hx, if_true]
    rw [ih y ys (fun z hz => hall z (List.mem_cons_of_mem _ hz)) hy]

/-- `s.split(sep)[-1]` of a string of the shape `a ++ sep ++ b` with `sep`
not occurring in `b` is exactly `b`. -/
theorem lastSegment_eq (sep : Char) (a b : String)
    (hb : b.data.contains sep = false) :
    lastSegment sep (a ++ String.singleton sep ++ b) = b := by
  have hball : ∀ x ∈ b.data.reverse, (decide (x ≠ sep)) = true := by
    intro x hx
    rw [List.mem_reverse] at hx
    simp only [decide_eq_true_eq]
    intro hxe
    subst hxe
    rw [← Bool.not_eq_true] at hb
    exact hb ((char_contains_iff _ _).mpr hx)
  unfold lastSegment
  have hdata : (a ++ String.singleton sep ++ b).data = a.data ++ [sep] ++ b.data := by
    simp [String.singleton]
  rw [hdata]
  simp only [List.reverse_append, List.reverse_cons, List.reverse_nil, List.nil_append,
    List.append_assoc, List.cons_append]
  rw [takeWhile_middle _ b.data.reverse sep a.data.reverse hball (by simp)]
  simp

/-- C5: the three URL-construction variants of `build_detail_url`.  The exact
pass-through pattern resolves against the list-page URL (and is the identity
on absolute `https` hrefs); a pattern containing `{id}` substitutes the
trailing `=`-query value when the href has one, and otherwise its trailing
`/`-path segment; any other pattern substitutes the raw href for `{href}`.
In particular `/jobs/view?id=42` with `https://x.vic.gov.au/detail/{id}`
resolves to `https://x.vic.gov.au/detail/42`. -/
theorem build_detail_url_spec :
    (∀ base, build_detail_url base "/jobs/view?id=42" "https://x.vic.gov.au/detail/{id}" =
      "https://x.vic.gov.au/detail/42") ∧
    (∀ base href, build_detail_url base href "{href}" = urljoin base href) ∧
    (∀ base href, href ≠ "" → startsWithL "https://" href = true →
      build_detail_url base href "{href}" = href) ∧
    (∀ base href pattern a b, pattern ≠ "{href}" →
      hasSub "{id}".data pattern.data = true →
      href = a ++ String.singleton '=' ++ b → b.data.contains '=' = false →
      build_detail_url base href pattern =
        String.mk (replaceSub "{id}".data b.data pattern.data)) ∧
    (∀ base href pattern a b, pattern ≠ "{href}" →
      hasSub "{id}".data pattern.data = true →
      href.data.contains '=' = false →
      href = a ++ String.singleton '/' ++ b → b.data.contains '/' = false →
      build_detail_url base href pattern =
        String.mk (replaceSub "{id}".data b.data pattern.data)) ∧
    (∀ base href pattern, pattern ≠ "{href}" →
      hasSub "{id}".data pattern.data = false →
      build_detail_url base href pattern =
        String.mk (replaceSub "{href}".data href.data pattern.data)) := by
  refine ⟨?_, ?_, ?_, ?_, ?_, ?_⟩
  · intro base
    rfl
  · intro base href
    simp [build_detail_url]
  · intro base href hne hstart
    simp only [build_detail_url, if_pos rfl]
    unfold urljoin
    rw [if_neg hne, hstart, Bool.or_true, if_pos rfl]
    simp
  · intro base href pattern a b hpat hid hhref hb
    have hcontains : href.data.contains '=' = true := by
      rw [char_contains_iff, hhref]
      simp [String.singleton]
    unfold build_detail_url
    rw [if_neg hpat, if_pos hid, if_pos hcontains, hhref, lastSegment_eq '=' a b hb]
  · intro base href pattern a b hpat hid hnoeq hhref hb
    unfold build_detail_url
    rw [if_neg hpat, if_pos hid, if_neg (by rw [hnoeq]; exact Bool.false_ne_true),
      hhref, lastSegment_eq '/' a b hb]
  · intro base href pattern hpat hid
    unfold build_detail_url
    rw [if_neg hpat, if_neg (by rw [hid]; exact Bool.false_ne_true)]

/-- Witness for C5: each variant at a concrete input. -/
theorem build_detail_url_spec_witness :
    build_detail_url "https://c.vic.gov.au/list" "/jobs/view?id=42"
      "https://x.vic.gov.au/detail/{id}" = "https://x.vic.gov.au/detail/42" ∧
    build_detail_url "https://c.vic.gov.au/list" "https://c.vic.gov.au/j/7" "{href}" =
      "https://c.vic.gov.au/j/7" ∧
    build_detail_url "B" "a/b/9" "D{id}" = String.mk (replaceSub "{id}".data "9".data "D{id}".data) ∧
    build_detail_url "B" "h7" "https://y/{href}/z" =
      String.mk (replaceSub "{href}".data "h7".data "https://y/{href}/z".data) :=
  ⟨build_detail_url_spec.1 "https://c.vic.gov.au/list",
   build_detail_url_spec.2.2.1 "https://c.vic.gov.au/list" "https://c.vic.gov.au/j/7"
     (by decide) (by decide),
   build_detail_url_spec.2.2.2.2.1 "B" "a/b/9" "D{id}" "a/b" "9" (by decide) (by decide)
     (by decide) (by decide) (by decide),
   build_detail_url_spec.2.2.2.2.2 "B" "h7" "https://y/{href}/z" (by decide) (by decide)⟩

/-! ## C3 -/

/-- C3 counterexample: the bracket class `[0-9–\-]` also matches runs with no
digit at all.  On `"Band –"` (the word, a space and a single en-dash) the code
returns `"Band –"`, not the default, although the text contains no digits —
so the pattern is not "Band followed by one or more digits optionally
separated by a dash". -/
theorem band_no_digit_counterexample :
    extract_pay_band "Band –" "Not specified" = "Band –" ∧
    "Band –" ≠ "Not specified" ∧
    "Band –".data.all (fun ch => !ch.isDigit) = true :=
  ⟨by decide, by decide, by decide⟩

/-- All elements of a `takeWhile` satisfy the predicate. -/
theorem all_takeWhile (p : Char → Bool) (l : List Char) :
    (l.takeWhile p).all p = true :=
  List.all_eq_true.mpr fun _ hx => List.mem_takeWhile_imp hx

/-- Dropping a prefix that satisfies the predicate throughout. -/
theorem dropWhile_all_append (p : Char → Bool) :
    ∀ xs ys, (∀ x ∈ xs, p x = true) → List.dropWhile p (xs ++ ys) = List.dropWhile p ys := by
  intro xs
  induction xs with
  | nil => intro ys _; rfl
  | cons x xs ih =>
    intro ys hall
    have hx := hall x (List.mem_cons_self _ _)
    simp only [List.cons_append, List.dropWhile_cons, hx, if_true]
    exact ih ys fun z hz => hall z (List.mem_cons_of_mem _ hz)

/-- The bracket class and the whitespace class are disjoint. -/
theorem bandChar_not_pySpace (c : Char) (h : bandChar c = true) : pySpace c = false := by
  rw [Bool.eq_false_iff]
  intro hsp
  simp only [bandChar, pySpace, Bool.or_eq_true, Bool.and_eq_true, beq_iff_eq,
    decide_eq_true_eq] at h hsp
  omega

/-- Shape of a successful `bandAt` match. -/
theorem bandAt_sound (l g : List Char) (h : bandAt l = some g) :
    ∃ b a n d rest, l = b :: a :: n :: d :: rest ∧
      chB b = true ∧ chA a = true ∧ chN n = true ∧ chD d = true ∧
      g = (rest.dropWhile pySpace).takeWhile bandChar ∧ g ≠ [] := by
  cases l with
  | nil => simp [bandAt] at h
  | cons b l1 =>
    cases l1 with
    | nil => simp [bandAt] at h
    | cons a l2 =>
      cases l2 with
      | nil => simp [bandAt] at h
      | cons n l3 =>
        cases l3 with
        | nil => simp [bandAt] at h
        | cons d rest =>
          simp only [bandAt] at h
          by_cases hc : (chB b && chA a && chN n && chD d) = true
          · rw [if_pos hc] at h
            by_cases hg : ((rest.dropWhile pySpace).takeWhile bandChar).isEmpty = true
            · rw [if_pos hg] at h; cases h
            · rw [if_neg hg] at h
              injection h with h
              subst h
              simp only [Bool.and_eq_true] at hc
              refine ⟨b, a, n, d, rest, rfl, hc.1.1.1, hc.1.1.2, hc.1.2, hc.2, rfl, ?_⟩
              intro hnil
              rw [hnil] at hg
              exact hg rfl
          · rw [if_neg hc] at h; cases h

/-- A successful `bandAt` match at the head of `l` yields a non-empty all-class
group occurring in `l` after the literal and optional whitespace. -/
theorem bandAt_occurrence (l g : List Char) (h : bandAt l = some g) :
    g ≠ [] ∧ g.all bandChar = true ∧ bandOccurrence l g := by
  obtain ⟨b, a, n, d, rest, hl, h1, h2, h3, h4, hg, hne⟩ := bandAt_sound l g h
  subst hl
  subst hg
  refine ⟨hne, all_takeWhile _ _, ?_⟩
  refine ⟨[], b, a, n, d, rest.takeWhile pySpace,
    (rest.dropWhile pySpace).dropWhile bandChar, ?_, h1, h2, h3, h4,
    all_takeWhile _ _, hne, all_takeWhile _ _⟩
  have hr : rest.takeWhile pySpace ++ ((rest.dropWhile pySpace).takeWhile bandChar ++
      (rest.dropWhile pySpace).dropWhile bandChar) = rest := by
    rw [List.takeWhile_append_dropWhile, List.takeWhile_append_dropWhile]
  simp only [List.nil_append, List.cons_append, List.append_assoc]
  rw [hr]

/-- Soundness of the scan: a successful search yields a non-empty all-class
group that occurs in the text after a case-variant of `band` and optional
whitespace. -/
theorem bandSearch_sound : ∀ (l g : List Char), bandSearch l = some g →
    g ≠ [] ∧ g.all bandChar = true ∧ bandOccurrence l g := by
  intro l
  induction l with
  | nil => intro g h; simp [bandSearch] at h
  | cons c rest ih =>
    intro g h
    simp only [bandSearch] at h
    cases hat : bandAt (c :: rest) with
    | some g' =>
      rw [hat] at h
      injection h with h
      subst h
      exact bandAt_occurrence _ _ hat
    | none =>
      rw [hat] at h
      simp only at h
      obtain ⟨hne, hall, hocc⟩ := ih g h
      refine ⟨hne, hall, ?_⟩
      obtain ⟨p, b, a, n, d, sp, q, hl, h1, h2, h3, h4, hsp, hg, hgc⟩ := hocc
      refine ⟨c :: p, b, a, n, d, sp, q, ?_, h1, h2, h3, h4, hsp, hg, hgc⟩
      rw [List.cons_append, List.cons_append, List.cons_append, List.cons_append, hl]

/-- A `bandAt` match exists at a position presenting the literal, whitespace
and a non-empty class run. -/
theorem bandAt_some_of_parts (b a n d : Char) (sp g q : List Char)
    (h1 : chB b = true) (h2 : chA a = true) (h3 : chN n = true) (h4 : chD d = true)
    (hsp : sp.all pySpace = true) (hg : g ≠ []) (hgc : g.all bandChar = true) :
    ∃ g', bandAt (b :: a :: n :: d :: (sp ++ g ++ q)) = some g' := by
  cases g with
  | nil => exact absurd rfl hg
  | cons gh gt =>
    have hgh : bandChar gh = true := List.all_eq_true.mp hgc gh (List.mem_cons_self _ _)
    have hdrop : ((sp ++ (gh :: gt) ++ q).dropWhile pySpace) = gh :: (gt ++ q) := by
      rw [List.append_assoc, dropWhile_all_append pySpace sp _ (List.all_eq_true.mp hsp),
        List.cons_append, List.dropWhile_cons]
      simp [bandChar_not_pySpace gh hgh]
    refine ⟨gh :: (gt ++ q).takeWhile bandChar, ?_⟩
    simp only [bandAt]
    rw [if_pos (by simp [h1, h2, h3, h4]), hdrop, List.takeWhile_cons]
    simp [hgh]

/-- Completeness of the scan: whenever the text contains (case-insensitively)
`band` followed by optional whitespace and a non-empty class run, the search
succeeds. -/
theorem bandSearch_some_of_occurrence : ∀ (l : List Char) (g : List Char),
    bandOccurrence l g → ∃ g', bandSearch l = some g' := by
  intro l
  induction l with
  | nil =>
    intro g hocc
    obtain ⟨p, b, a, n, d, sp, q, hl, _, _, _, _, _, _, _⟩ := hocc
    have := congrArg List.length hl
    simp [List.length_append] at this
    omega
  | cons c rest ih =>
    intro g hocc
    obtain ⟨p, b, a, n, d, sp, q, hl, h1, h2, h3, h4, hsp, hg, hgc⟩ := hocc
    cases p with
    | nil =>
      have hl2 : c :: rest = b :: a :: n :: d :: (sp ++ g ++ q) :=
        hl.trans (by simp [List.cons_append, List.append_assoc])
      obtain ⟨g', hsome⟩ := bandAt_some_of_parts b a n d sp g q h1 h2 h3 h4 hsp hg hgc
      refine ⟨g', ?_⟩
      rw [hl2]
      simp only [bandSearch]
      rw [hsome]
    | cons c' p' =>
      have hl2 : c :: rest = c' :: (p' ++ [b, a, n, d] ++ sp ++ g ++ q) :=
        hl.trans (by simp [List.cons_append, List.append_assoc])
      injection hl2 with hc hrest
      simp only [bandSearch]
      cases hat : bandAt (c :: rest) with
      | some g' => exact ⟨g', rfl⟩
      | none => exact ih g ⟨p', b, a, n, d, sp, q, hrest, h1, h2, h3, h4, hsp, hg, hgc⟩

/-- Case variants have identical whitespace-class membership. -/
theorem caseVar_pySpace (a b : Char) (h : caseVar a b = true) : pySpace a = pySpace b := by
  rw [Bool.eq_iff_iff]
  simp only [caseVar, pySpace, Bool.or_eq_true, Bool.and_eq_true, beq_iff_eq,
    decide_eq_true_eq] at h ⊢
  rcases h with (h | h) | h
  · subst h; exact Iff.rfl
  · omega
  · omega

/-- Case variants have identical bracket-class membership. -/
theorem caseVar_bandChar (a b : Char) (h : caseVar a b = true) : bandChar a = bandChar b := by
  rw [Bool.eq_iff_iff]
  simp only [caseVar, bandChar, Bool.or_eq_true, Bool.and_eq_true, beq_iff_eq,
    decide_eq_true_eq] at h ⊢
  rcases h with (h | h) | h
  · subst h; exact Iff.rfl
  · omega
  · omega

/-- A bracket-class character has no distinct case variant. -/
theorem caseVar_eq_of_bandChar (a b : Char) (h : caseVar a b = true)
    (hc : bandChar a = true) : a = b := by
  simp only [caseVar, bandChar, Bool.or_eq_true, Bool.and_eq_true, beq_iff_eq,
    decide_eq_true_eq] at h hc
  rcases h with (h | h) | h
  · exact h
  · exfalso; omega
  · exfalso; omega

/-- Case variants match the letter `b` identically. -/
theorem caseVar_chB (a b : Char) (h : caseVar a b = true) : chB a = chB b := by
  rw [Bool.eq_iff_iff]
  simp only [caseVar, chB, Bool.or_eq_true, Bool.and_eq_true, beq_iff_eq,
    decide_eq_true_eq] at h ⊢
  rcases h with (h | h) | h
  · subst h; exact Iff.rfl
  · omega
  · omega

/-- Case variants match the letter `a` identically. -/
theorem caseVar_chA (a b : Char) (h : caseVar a b = true) : chA a = chA b := by
  rw [Bool.eq_iff_iff]
  simp only [caseVar, chA, Bool.or_eq_true, Bool.and_eq_true, beq_iff_eq,
    decide_eq_true_eq] at h ⊢
  rcases h with (h | h) | h
  · subst h; exact Iff.rfl
  · omega
  · omega

/-- Case variants match the letter `n` identically. -/
theorem caseVar_chN (a b : Char) (h : caseVar a b = true) : chN a = chN b := by
  rw [Bool.eq_iff_iff]
  simp only [caseVar, chN, Bool.or_eq_true, Bool.and_eq_true, beq_iff_eq,
    decide_eq_true_eq] at h ⊢
  rcases h with (h | h) | h
  · subst h; exact Iff.rfl
  · omega
  · omega

/-- Case variants match the letter `d` identically. -/
theorem caseVar_chD (a b : Char) (h : caseVar a b = true) : chD a = chD b := by
  rw [Bool.eq_iff_iff]
  simp only [caseVar, chD, Bool.or_eq_true, Bool.and_eq_true, beq_iff_eq,
    decide_eq_true_eq] at h ⊢
  rcases h with (h | h) | h
  · subst h; exact Iff.rfl
  · omega
  · omega

/-- Pointwise case variation is preserved by dropping leading whitespace. -/
theorem forall2_dropWhile (l l' : List Char)
    (h : List.Forall₂ (fun a b => caseVar a b = true) l l') :
    List.Forall₂ (fun a b => caseVar a b = true)
      (l.dropWhile pySpace) (l'.dropWhile pySpace) := by
  induction h with
  | nil => exact List.Forall₂.nil
  | cons hab hrest ih =>
    rename_i a b as bs
    rw [List.dropWhile_cons, List.dropWhile_cons, ← caseVar_pySpace a b hab]
    by_cases hp : pySpace a = true
    · rw [if_pos hp, if_pos hp]; exact ih
    · rw [if_neg hp, if_neg hp]; exact List.Forall₂.cons hab hrest

/-- Pointwise case variants take identical bracket-class runs. -/
theorem forall2_takeWhile (l l' : List Char)
    (h : List.Forall₂ (fun a b => caseVar a b = true) l l') :
    l.takeWhile bandChar = l'.takeWhile bandChar := by
  induction h with
  | nil => rfl
  | cons hab hrest ih =>
    rename_i a b as bs
    rw [List.takeWhile_cons, List.takeWhile_cons, ← caseVar_bandChar a b hab]
    by_cases hc : bandChar a = true
    · rw [if_pos hc, if_pos hc, caseVar_eq_of_bandChar a b hab hc, ih]
    · rw [if_neg hc, if_neg hc]

/-- `bandAt` is invariant under pointwise case variation. -/
theorem bandAt_caseVar : ∀ (l l' : List Char),
    List.Forall₂ (fun x y => caseVar x y = true) l l' → bandAt l = bandAt l' := by
  intro l l' h
  cases h with
  | nil => rfl
  | cons h1 h =>
    cases h with
    | nil => rfl
    | cons h2 h =>
      cases h with
      | nil => rfl
      | cons h3 h =>
        cases h with
        | nil => rfl
        | cons h4 h =>
          rename_i b b' rest rest' a a' n n' d d'
          simp only [bandAt]
          rw [caseVar_chB _ _ h1, caseVar_chA _ _ h2, caseVar_chN _ _ h3,
            caseVar_chD _ _ h4, forall2_takeWhile _ _ (forall2_dropWhile _ _ h)]

/-- Congruence for the step of `bandSearch` under an equal tail search. -/
theorem bandSearch_step_congr (o : Option (List Char)) (x y : List Char)
    (hxy : bandSearch x = bandSearch y) :
    (match o with | some g => some g | none => bandSearch x) =
      (match o with | some g => some g | none => bandSearch y) := by
  cases o with
  | some g => rfl
  | none => exact hxy

/-- `bandSearch` is invariant under pointwise case variation. -/
theorem bandSearch_caseVar : ∀ (l l' : List Char),
    List.Forall₂ (fun x y => caseVar x y = true) l l' → bandSearch l = bandSearch l' := by
  intro l l' h
  induction h with
  | nil => rfl
  | cons h1 hrest ih =>
    simp only [bandSearch]
    rw [bandAt_caseVar _ _ (List.Forall₂.cons h1 hrest)]
    exact bandSearch_step_congr _ _ _ ih

/-- `extract_pay_band` in terms of the scan (the empty-text shortcut of the
code is redundant: the scan of an empty text fails anyway). -/
theorem extract_pay_band_eq (s d : String) :
    extract_pay_band s d =
      match bandSearch s.data with
      | some g => "Band " ++ String.mk g
      | none => d := by
  unfold extract_pay_band
  by_cases hs : s = ""
  · subst hs; rfl
  · rw [if_neg hs]

/-- C3 amended: `extract_pay_band` is a pure function of its text argument;
it is case-insensitive (any pointwise case variant of the text yields the same
result); when the scan fails it returns the default; when the scan succeeds it
returns `"Band "` followed by a non-empty run of characters from the class
digits/dash/en-dash — not necessarily containing a digit — that occurs in the
text after a case variant of the literal `band` and optional whitespace; and
the scan succeeds exactly when such an occurrence exists.  The spec's three
examples hold. -/
theorem extract_pay_band_amended :
    (∀ s d, bandSearch s.data = none → extract_pay_band s d = d) ∧
    (∀ s d g, bandSearch s.data = some g →
      extract_pay_band s d = "Band " ++ String.mk g ∧ g ≠ [] ∧
      g.all bandChar = true ∧ bandOccurrence s.data g) ∧
    (∀ (s : String) (g : List Char), bandOccurrence s.data g →
      ∃ g', bandSearch s.data = some g') ∧
    (∀ s t d, List.Forall₂ (fun a b => caseVar a b = true) s.data t.data →
      extract_pay_band s d = extract_pay_band t d) ∧
    extract_pay_band "Band 4–5 $90,000" "x" = "Band 4–5" ∧
    extract_pay_band "Senior Officer" "Not specified" = "Not specified" ∧
    extract_pay_band "band 7" "d" = "Band 7" := by
  refine ⟨?_, ?_, ?_, ?_, by decide, by decide, by decide⟩
  · intro s d h
    rw [extract_pay_band_eq, h]
  · intro s d g h
    obtain ⟨hne, hall, hocc⟩ := bandSearch_sound s.data g h
    exact ⟨by rw [extract_pay_band_eq, h], hne, hall, hocc⟩
  · intro s g hocc
    exact bandSearch_some_of_occurrence s.data g hocc
  · intro s t d h
    rw [extract_pay_band_eq, extract_pay_band_eq, bandSearch_caseVar _ _ h]

/-- Witness for C3's amended theorem: the default branch at `"Senior
Officer"`, and case-insensitivity between `"Band 7"` and `"band 7"`. -/
theorem extract_pay_band_amended_witness :
    bandSearch "Senior Officer".data = none ∧
    extract_pay_band "Senior Officer" "Not specified" = "Not specified" ∧
    extract_pay_band "Band 7" "d" = extract_pay_band "band 7" "d" :=
  ⟨by decide,
   extract_pay_band_amended.1 "Senior Officer" "Not specified" (by decide),
   extract_pay_band_amended.2.2.2.1 "Band 7" "band 7" "d" (by
     refine List.Forall₂.cons (by decide) ?_
     refine List.Forall₂.cons (by decide) ?_
     refine List.Forall₂.cons (by decide) ?_
     refine List.Forall₂.cons (by decide) ?_
     refine List.Forall₂.cons (by decide) ?_
     refine List.Forall₂.cons (by decide) ?_
     exact List.Forall₂.nil)⟩
